import Mathlib

/-!
# Verification of `AlignedVector` (deal.II `include/deal.II/base/aligned_vector.h`)

A shallow embedding of the `AlignedVector<T>` container and of the bulk-set
primitive `internal::AlignedVectorSet`, together with proofs about the claims
of the specification.

## The data model

The C++ class holds three pointers (`elements`, `used_elements_end`,
`allocated_elements_end`) into one owned aligned block.  We model the block as
a list with one entry per allocated slot:

* `elements : List (Option α)` — the contents of the allocated block; a slot
  holds `some x` once a value has been stored in it and `none` while it only
  holds indeterminate freshly-allocated bytes.  `elements.length` models
  `allocated_elements_end - elements` (the capacity).
* `used : Nat` — models `used_elements_end - elements` (the size).

Machine integers: `std::size_t` values are modelled as `Nat` (allocation
sizes reachable on a real machine never wrap a 64-bit counter), while the
narrowing conversion to `unsigned int` that the source performs in
`insert_back` (`const unsigned int old_size = size();`) is modelled exactly,
as `% 2 ^ 32`.

The element-type dependent code paths are modelled at a *trivial* element
type (`std::is_trivial<T> == true`), the class of types the serialization
claims are stated for.  For trivial `T` the source

* skips destructor calls on shrink (dead slots keep their residual bytes —
  modelled by leaving list entries beyond `used` unchanged),
* performs grows of `resize_fast` without writing the new slots (they expose
  residual memory),
* writes new slots of `resize` with `memset` zero and new slots of
  `resize(n, init)` with the supplied value; the zero bit pattern of a
  trivial type is its default value, modelled by `(default : α)`.

For a non-trivial `T` the only observable difference is that `resize_fast`
default-initializes the new slots as well, which only strengthens the single
claim that mentions `resize_fast` grow contents (it guarantees nothing
there).
-/

/-- Overwrite the slots `[s, s + n)` of a list with the value `val`
(entries outside the list are ignored).  This is the effect of the
`memset`/assignment loops of `internal::AlignedVectorSet` and
`internal::AlignedVectorDefaultInitialize` on the destination range. -/
def fillRangeP {β : Type} (val : β) : List β → Nat → Nat → List β
  | [], _, _ => []
  | x :: xs, s + 1, n => x :: fillRangeP val xs s n
  | _ :: xs, 0, n + 1 => val :: fillRangeP val xs 0 n
  | x :: xs, 0, 0 => x :: xs

/-- Overwrite the slots starting at position `s` of a list with the entries
of `vs`, in order (writes that fall beyond the end of the list are ignored;
the list never grows).  This is the effect of the element-wise copy loops
(`internal::AlignedVectorCopy`, the `insert_back` loop, the archive read of
`load`) on the destination block. -/
def writeSeqO {β : Type} : List β → Nat → List β → List β
  | [], _, _ => []
  | x :: xs, s + 1, vs => x :: writeSeqO xs s vs
  | _ :: xs, 0, v :: vs => v :: writeSeqO xs 0 vs
  | x :: xs, 0, [] => x :: xs

/-- The state of an `AlignedVector<T>`: the contents of the allocated block
(one entry per slot) and the number of used slots.  See the file comment for
the correspondence with the pointer triple of the source. -/
structure AlignedVector (α : Type) where
  elements : List (Option α)
  used : Nat

namespace AlignedVector

variable {α : Type}

/-- `size() const`: `used_elements_end - elements`. -/
def size (v : AlignedVector α) : Nat := v.used

/-- `capacity() const`: `allocated_elements_end - elements`. -/
def capacity (v : AlignedVector α) : Nat := v.elements.length

/-- The contents of slot `i` of the allocated block (`elements[i]`);
`none` when `i` is outside the block or the slot was never written. -/
def read (v : AlignedVector α) (i : Nat) : Option α := v.elements.getD i none

/-- The pointer invariant `elements ≤ used_elements_end ≤
allocated_elements_end` of the class, in offset form. -/
abbrev Wf (v : AlignedVector α) : Prop := v.used ≤ v.capacity

/-- The default constructor `AlignedVector()`: all three pointers null. -/
def empty (α : Type) : AlignedVector α := ⟨[], 0⟩

/-- `clear()`: destruct live elements (non-trivial `T` only), release the
block, reset the three pointers to null. -/
def clear (_v : AlignedVector α) : AlignedVector α := ⟨[], 0⟩

/-- `reserve(new_allocated_size)`: if the request exceeds the current
capacity, allocate `max(new_allocated_size, 2 * old_allocated_size)` fresh
(indeterminate) slots, move the `old_size` live elements into the new block
(`internal::AlignedVectorMove`) and release the old block; otherwise a
request of `0` calls `clear()` and any other request does nothing. -/
def reserve (v : AlignedVector α) (new_allocated_size : Nat) : AlignedVector α :=
  let old_size := v.used
  let old_allocated_size := v.capacity
  if new_allocated_size > old_allocated_size then
    let new_size := max new_allocated_size (2 * old_allocated_size)
    { elements := writeSeqO (List.replicate new_size (none : Option α)) 0
        (v.elements.take old_size),
      used := old_size }
  else if new_allocated_size = 0 then
    v.clear
  else
    v

/-- `resize_fast(new_size)` at a trivial element type: skip the shrink
destructors, `reserve(new_size)`, move `used_elements_end`; new slots are
left with whatever bytes the block holds.  (For non-trivial `T` the source
additionally default-initializes grown slots.) -/
def resize_fast (v : AlignedVector α) (new_size : Nat) : AlignedVector α :=
  let v1 := v.reserve new_size
  { v1 with used := new_size }

/-- `resize(new_size)`: shrink destructors (trivial `T`: skipped),
`reserve(new_size)`, move `used_elements_end`, then default-initialize the
grown range `[old_size, new_size)` via
`internal::AlignedVectorDefaultInitialize` — a `memset` to zero for trivial
`T`, modelled as the default value. -/
def resize [Inhabited α] (v : AlignedVector α) (new_size : Nat) : AlignedVector α :=
  let old_size := v.used
  let v1 := v.reserve new_size
  if new_size > old_size then
    { elements := fillRangeP (some (default : α)) v1.elements old_size (new_size - old_size),
      used := new_size }
  else
    { v1 with used := new_size }

/-- `resize(new_size, init)`: like `resize(new_size)` but the grown range is
set to copies of `init` via `internal::AlignedVectorSet`. -/
def resize_init (v : AlignedVector α) (new_size : Nat) (init : α) : AlignedVector α :=
  let old_size := v.used
  let v1 := v.reserve new_size
  if new_size > old_size then
    { elements := fillRangeP (some init) v1.elements old_size (new_size - old_size),
      used := new_size }
  else
    { v1 with used := new_size }

/-- `push_back(in_data)`: grow to `max(2 * capacity(), 16)` when full, then
store the value in the slot at `used_elements_end` and advance it. -/
def push_back (v : AlignedVector α) (in_data : α) : AlignedVector α :=
  let v1 := if v.used = v.capacity then v.reserve (max (2 * v.capacity) 16) else v
  { elements := writeSeqO v1.elements v1.used [some in_data],
    used := v1.used + 1 }

/-- `insert_back(begin, end)`: the source computes
`const unsigned int old_size = size();` — a narrowing conversion modelled by
`% 2 ^ 32` — reserves `old_size + (end - begin)` and then appends the range
one element at a time, advancing `used_elements_end` for each element. -/
def insert_back (v : AlignedVector α) (src : List α) : AlignedVector α :=
  let old_size := v.used % 2 ^ 32
  let v1 := v.reserve (old_size + src.length)
  { elements := writeSeqO v1.elements v1.used (src.map some),
    used := v1.used + src.length }

/-- The move constructor `AlignedVector(AlignedVector&&)`: the new object
steals the three pointers, the source's pointers are nulled.  Returns
(moved-to object, moved-from object). -/
def move_construct (v : AlignedVector α) : AlignedVector α × AlignedVector α :=
  (⟨v.elements, v.used⟩, ⟨[], 0⟩)

/-- `operator=(const AlignedVector&)` applied with source and destination
being the *same* object, threading the aliasing through each step of the
source: `resize(0)` (which also clears the aliased source), then
`resize_fast(vec.used_elements_end - vec.elements.get())` where both
pointers of the aliased source are now null (argument `0`), then an
`internal::AlignedVectorCopy` of the now-empty live range onto itself. -/
def assign_self [Inhabited α] (v : AlignedVector α) : AlignedVector α :=
  let v1 := v.resize 0
  let v2 := v1.resize_fast v1.used
  { elements := writeSeqO v2.elements 0 (v2.elements.take v2.used),
    used := v2.used }

/-- `save(ar, version)`: write the element count, then (when nonzero) the raw
live element range as an opaque payload. -/
def save (v : AlignedVector α) : Nat × List (Option α) :=
  (v.used, v.elements.take v.used)

/-- `load(ar, version)`: read a count; when nonzero, `reserve(vec_size)`,
read `vec_size` raw elements from the archive payload into the block
(bypassing element construction), and set `used_elements_end` to
`elements + vec_size`.  A count of zero leaves the object untouched.
(When the archive is truncated, boost throws while reading the payload —
after the reservation has already been made; the model keeps the post-
reservation state, which is what the validation claim is about.) -/
def load (v : AlignedVector α) (count : Nat) (payload : List (Option α)) :
    AlignedVector α :=
  if count = 0 then v
  else
    let v1 := v.reserve count
    { elements := writeSeqO v1.elements 0 (payload.take count),
      used := count }

end AlignedVector

/-! ## The bulk-set primitive `internal::AlignedVectorSet`

`AlignedVectorSet<T, initialize_memory>` fills a destination range with
copies of one element.  For a trivial `T` other than `long double` the
constructor compares the element's object representation against an all-zero
buffer with `memcmp` and, on equality, lets `apply_to_subrange` use a raw
`memset` to zero instead of the element-wise loop.

A trivial element is modelled by its object representation: a list of bytes
of length `w = sizeof(T)`.  For such types the value *is* its bytes, so the
`memcmp` in the source is byte-list equality.  The `long double` exclusion
(a type whose value representation does not span all `sizeof` bytes, so the
comparison could read indeterminate padding) is a boolean flag, exactly as
the `std::is_same<T, long double>` test in the source. -/

/-- The all-zero object representation of width `w` (the `zero[sizeof(T)]`
buffer of the source). -/
def zeroBytes (w : Nat) : List Nat := List.replicate w 0

/-- The `trivial_element` flag computed by the `AlignedVectorSet`
constructor: trivial type, not `long double`, and the element's `sizeof(T)`
bytes compare equal to the zero buffer. -/
def trivialElement (isTrivial isLongDouble : Bool) (w : Nat) (element : List Nat) :
    Bool :=
  isTrivial && !isLongDouble && decide (element = zeroBytes w)

/-- The effect of `AlignedVectorSet<T, b>` over the whole range `[0, n)` of
the destination (the parallel partitioning applies `apply_to_subrange` to
index-disjoint subranges whose union is `[0, n)`, so the combined effect on
the destination contents is that of the full range): a raw zero-`memset`
when the trivial fast path applies, otherwise the element-wise
copy-construct (`initialize_memory = true`) or copy-assign
(`initialize_memory = false`) loop — both of which store `element` in every
slot of the range. -/
def alignedVectorSet (isTrivial isLongDouble : Bool) (w n : Nat)
    (element : List Nat) (dest : List (List Nat)) : List (List Nat) :=
  if n = 0 then dest
  else if isTrivial && trivialElement isTrivial isLongDouble w element then
    fillRangeP (zeroBytes w) dest 0 n
  else
    fillRangeP element dest 0 n

/-- The unoptimized reference implementation of the set primitive: always the
element-wise loop, no zero-pattern detection. -/
def alignedVectorSetNoOpt (n : Nat) (element : List Nat)
    (dest : List (List Nat)) : List (List Nat) :=
  if n = 0 then dest else fillRangeP element dest 0 n

/-! ## Helper lemmas about the list primitives -/

theorem fillRangeP_length {β : Type} (val : β) (l : List β) (s n : Nat) :
    (fillRangeP val l s n).length = l.length := by
  induction l generalizing s n with
  | nil => simp [fillRangeP]
  | cons x xs ih =>
    cases s with
    | zero =>
      cases n with
      | zero => simp [fillRangeP]
      | succ m => simp [fillRangeP, ih]
    | succ t => simp [fillRangeP, ih]

theorem fillRangeP_getD {β : Type} (val d : β) (l : List β) (s n i : Nat) :
    (fillRangeP val l s n).getD i d =
      if s ≤ i ∧ i < s + n ∧ i < l.length then val else l.getD i d := by
  induction l generalizing s n i with
  | nil => simp [fillRangeP]
  | cons x xs ih =>
    cases s with
    | zero =>
      cases n with
      | zero => simp [fillRangeP]
      | succ m =>
        cases i with
        | zero => simp [fillRangeP]
        | succ j =>
          rw [show fillRangeP val (x :: xs) 0 (m + 1) =
              val :: fillRangeP val xs 0 m from rfl,
            List.getD_cons_succ, List.getD_cons_succ, ih, List.length_cons]
          exact if_congr (by omega) rfl rfl
    | succ t =>
      cases i with
      | zero => simp [fillRangeP]
      | succ j =>
        rw [show fillRangeP val (x :: xs) (t + 1) n =
            x :: fillRangeP val xs t n from rfl,
          List.getD_cons_succ, List.getD_cons_succ, ih, List.length_cons]
        exact if_congr (by omega) rfl rfl

theorem writeSeqO_length {β : Type} (l : List β) (s : Nat) (vs : List β) :
    (writeSeqO l s vs).length = l.length := by
  induction l generalizing s vs with
  | nil => simp [writeSeqO]
  | cons x xs ih =>
    cases s with
    | zero =>
      cases vs with
      | nil => simp [writeSeqO]
      | cons v vt => simp [writeSeqO, ih]
    | succ t => simp [writeSeqO, ih]

theorem writeSeqO_getD {β : Type} (d : β) (l : List β) (s : Nat) (vs : List β)
    (i : Nat) :
    (writeSeqO l s vs).getD i d =
      if s ≤ i ∧ i < s + vs.length ∧ i < l.length then vs.getD (i - s) d
      else l.getD i d := by
  induction l generalizing s vs i with
  | nil => simp [writeSeqO]
  | cons x xs ih =>
    cases s with
    | zero =>
      cases vs with
      | nil => simp [writeSeqO]
      | cons v vt =>
        cases i with
        | zero => simp [writeSeqO]
        | succ j =>
          rw [show writeSeqO (x :: xs) 0 (v :: vt) =
              v :: writeSeqO xs 0 vt from rfl,
            List.getD_cons_succ, List.getD_cons_succ, ih, List.length_cons,
            List.length_cons]
          by_cases h : 0 ≤ j ∧ j < 0 + vt.length ∧ j < xs.length
          · rw [if_pos h, if_pos (by omega),
              show j + 1 - 0 = (j - 0) + 1 from by omega, List.getD_cons_succ]
          · rw [if_neg h, if_neg (by omega)]
    | succ t =>
      cases i with
      | zero => simp [writeSeqO]
      | succ j =>
        rw [show writeSeqO (x :: xs) (t + 1) vs =
            x :: writeSeqO xs t vs from rfl,
          List.getD_cons_succ, List.getD_cons_succ, ih, List.length_cons]
        by_cases h : t ≤ j ∧ j < t + vs.length ∧ j < xs.length
        · rw [if_pos h, if_pos (by omega),
            show j + 1 - (t + 1) = j - t from by omega]
        · rw [if_neg h, if_neg (by omega)]

theorem writeSeqO_nil_vals {β : Type} (l : List β) (s : Nat) :
    writeSeqO l s [] = l := by
  induction l generalizing s with
  | nil => simp [writeSeqO]
  | cons x xs ih =>
    cases s with
    | zero => simp [writeSeqO]
    | succ t => simp [writeSeqO, ih]

theorem getD_take {β : Type} (l : List β) (n i : Nat) (d : β) (h : i < n) :
    (l.take n).getD i d = l.getD i d := by
  induction l generalizing n i with
  | nil => simp
  | cons x xs ih =>
    cases n with
    | zero => omega
    | succ m =>
      cases i with
      | zero => simp
      | succ j =>
        rw [List.take_succ_cons, List.getD_cons_succ, List.getD_cons_succ,
          ih m j (by omega)]

theorem getD_replicate {β : Type} (a d : β) (n i : Nat) :
    (List.replicate n a).getD i d = if i < n then a else d := by
  induction n generalizing i with
  | zero => simp
  | succ m ih =>
    cases i with
    | zero => simp [List.replicate]
    | succ j =>
      rw [List.replicate, List.getD_cons_succ, ih]
      exact if_congr (by omega) rfl rfl

theorem getD_map_some {α : Type} (src : List α) (j : Nat) (h : j < src.length) :
    (src.map some).getD j none = src[j]? := by
  rw [List.getD_eq_getElem?_getD, List.getElem?_map,
    List.getElem?_eq_getElem h]
  simp

/-! ## Lemmas about the container operations -/

namespace AlignedVector

variable {α : Type}

theorem size_eq_used (v : AlignedVector α) : v.size = v.used := rfl

theorem reserve_zero (v : AlignedVector α) : v.reserve 0 = ⟨[], 0⟩ := by
  simp only [reserve]
  rw [if_neg (by omega)]
  simp [clear]

theorem reserve_of_le (v : AlignedVector α) {n : Nat} (h0 : 0 < n)
    (h : n ≤ v.capacity) : v.reserve n = v := by
  simp only [reserve]
  rw [if_neg (by omega), if_neg (by omega)]

theorem reserve_of_gt (v : AlignedVector α) {n : Nat} (h : v.capacity < n) :
    v.reserve n =
      { elements := writeSeqO
          (List.replicate (max n (2 * v.capacity)) (none : Option α)) 0
          (v.elements.take v.used),
        used := v.used } := by
  simp only [reserve]
  rw [if_pos (by omega)]

theorem reserve_used (v : AlignedVector α) {n : Nat} (h0 : 0 < n) :
    (v.reserve n).used = v.used := by
  by_cases h : v.capacity < n
  · rw [reserve_of_gt v h]
  · rw [reserve_of_le v h0 (by omega)]

theorem reserve_capacity_of_gt (v : AlignedVector α) {n : Nat}
    (h : v.capacity < n) :
    (v.reserve n).capacity = max n (2 * v.capacity) := by
  rw [reserve_of_gt v h]
  simp [capacity, writeSeqO_length]

theorem reserve_capacity_ge (v : AlignedVector α) {n : Nat} (h0 : 0 < n) :
    n ≤ (v.reserve n).capacity := by
  by_cases h : v.capacity < n
  · rw [reserve_capacity_of_gt v h]
    exact Nat.le_max_left _ _
  · rw [reserve_of_le v h0 (by omega)]
    omega

theorem reserve_capacity_mono (v : AlignedVector α) {n : Nat} (h0 : 0 < n) :
    v.capacity ≤ (v.reserve n).capacity := by
  by_cases h : v.capacity < n
  · rw [reserve_capacity_of_gt v h]
    calc v.capacity ≤ 2 * v.capacity := by omega
    _ ≤ max n (2 * v.capacity) := Nat.le_max_right _ _
  · rw [reserve_of_le v h0 (by omega)]

theorem reserve_read (v : AlignedVector α) {n j : Nat} (hw : v.Wf)
    (h0 : 0 < n) (hj : j < v.used) : (v.reserve n).read j = v.read j := by
  by_cases h : v.capacity < n
  · rw [reserve_of_gt v h]
    simp only [read]
    have hwl : v.used ≤ v.elements.length := hw
    have h2 : n ≤ max n (2 * v.capacity) := Nat.le_max_left _ _
    have hcond : 0 ≤ j ∧ j < 0 + (v.elements.take v.used).length ∧
        j < (List.replicate (max n (2 * v.capacity)) (none : Option α)).length := by
      refine ⟨Nat.zero_le _, ?_, ?_⟩
      · rw [List.length_take]
        omega
      · rw [List.length_replicate]
        simp only [capacity] at h h2
        omega
    rw [writeSeqO_getD, if_pos hcond, Nat.sub_zero, getD_take _ _ _ _ hj]
  · rw [reserve_of_le v h0 (by omega)]

theorem resize_used [Inhabited α] (v : AlignedVector α) (n : Nat) :
    (v.resize n).used = n := by
  simp only [resize]
  by_cases h : n > v.used
  · rw [if_pos h]
  · rw [if_neg h]

theorem resize_capacity_ge [Inhabited α] (v : AlignedVector α) (n : Nat) :
    n ≤ (v.resize n).capacity := by
  by_cases h0 : n = 0
  · omega
  · have hc := reserve_capacity_ge v (n := n) (by omega)
    simp only [resize]
    by_cases h : n > v.used
    · rw [if_pos h]
      simp only [capacity] at hc ⊢
      rw [fillRangeP_length]
      exact hc
    · rw [if_neg h]
      exact hc

theorem resize_Wf [Inhabited α] (v : AlignedVector α) (n : Nat) :
    (v.resize n).Wf := by
  have h1 := resize_used v n
  have h2 := resize_capacity_ge v n
  simp only [Wf, h1]
  exact h2

theorem resize_read_old [Inhabited α] (v : AlignedVector α) {n j : Nat}
    (hw : v.Wf) (hjn : j < n) (hju : j < v.used) :
    (v.resize n).read j = v.read j := by
  have h0 : 0 < n := by omega
  simp only [resize]
  by_cases h : n > v.used
  · rw [if_pos h]
    simp only [read]
    rw [fillRangeP_getD, if_neg (by omega)]
    exact reserve_read v hw h0 hju
  · rw [if_neg h]
    exact reserve_read v hw h0 hju

theorem resize_read_new [Inhabited α] (v : AlignedVector α) {n j : Nat}
    (hju : v.used ≤ j) (hjn : j < n) :
    (v.resize n).read j = some (default : α) := by
  have h0 : 0 < n := by omega
  have hc := reserve_capacity_ge v (n := n) h0
  simp only [resize]
  rw [if_pos (by omega)]
  simp only [read]
  rw [fillRangeP_getD, if_pos]
  refine ⟨hju, by omega, ?_⟩
  simp only [capacity] at hc
  omega

theorem resize_init_used (v : AlignedVector α) (n : Nat) (init : α) :
    (v.resize_init n init).used = n := by
  simp only [resize_init]
  by_cases h : n > v.used
  · rw [if_pos h]
  · rw [if_neg h]

theorem resize_init_capacity_ge (v : AlignedVector α) (n : Nat) (init : α) :
    n ≤ (v.resize_init n init).capacity := by
  by_cases h0 : n = 0
  · omega
  · have hc := reserve_capacity_ge v (n := n) (by omega)
    simp only [resize_init]
    by_cases h : n > v.used
    · rw [if_pos h]
      simp only [capacity] at hc ⊢
      rw [fillRangeP_length]
      exact hc
    · rw [if_neg h]
      exact hc

theorem resize_init_read_old (v : AlignedVector α) {n j : Nat} (init : α)
    (hw : v.Wf) (hjn : j < n) (hju : j < v.used) :
    (v.resize_init n init).read j = v.read j := by
  have h0 : 0 < n := by omega
  simp only [resize_init]
  by_cases h : n > v.used
  · rw [if_pos h]
    simp only [read]
    rw [fillRangeP_getD, if_neg (by omega)]
    exact reserve_read v hw h0 hju
  · rw [if_neg h]
    exact reserve_read v hw h0 hju

theorem resize_init_read_new (v : AlignedVector α) {n j : Nat} (init : α)
    (hju : v.used ≤ j) (hjn : j < n) :
    (v.resize_init n init).read j = some init := by
  have h0 : 0 < n := by omega
  have hc := reserve_capacity_ge v (n := n) h0
  simp only [resize_init]
  rw [if_pos (by omega)]
  simp only [read]
  rw [fillRangeP_getD, if_pos]
  refine ⟨hju, by omega, ?_⟩
  simp only [capacity] at hc
  omega

theorem resize_fast_used (v : AlignedVector α) (n : Nat) :
    (v.resize_fast n).used = n := rfl

theorem resize_fast_capacity_ge (v : AlignedVector α) (n : Nat) :
    n ≤ (v.resize_fast n).capacity := by
  by_cases h0 : n = 0
  · omega
  · exact reserve_capacity_ge v (by omega)

theorem resize_fast_read_old (v : AlignedVector α) {n j : Nat} (hw : v.Wf)
    (hjn : j < n) (hju : j < v.used) :
    (v.resize_fast n).read j = v.read j := by
  have h0 : 0 < n := by omega
  simp only [resize_fast, read]
  exact reserve_read v hw h0 hju

theorem resize_zero_eq [Inhabited α] (v : AlignedVector α) :
    v.resize 0 = ⟨[], 0⟩ := by
  simp only [resize]
  rw [if_neg (by omega), reserve_zero]

end AlignedVector

namespace AlignedVector

variable {α : Type}

theorem reserve_empty {n : Nat} (h0 : 0 < n) :
    (AlignedVector.empty α).reserve n = ⟨List.replicate n none, 0⟩ := by
  rw [reserve_of_gt (AlignedVector.empty α)
    (show (AlignedVector.empty α).capacity < n from h0)]
  simp [empty, capacity, writeSeqO_nil_vals]

theorem resize_empty_capacity [Inhabited α] {n : Nat} (h0 : 0 < n) :
    ((AlignedVector.empty α).resize n).capacity = n := by
  simp only [resize, reserve_empty h0]
  rw [if_pos (show n > (AlignedVector.empty α).used from h0)]
  simp only [capacity, fillRangeP_length, List.length_replicate]

theorem insert_back_oversized (v : AlignedVector α) (x : α)
    (hu : v.used = 2 ^ 32) (hc : v.capacity = 2 ^ 32) :
    (v.insert_back [x]).used = 2 ^ 32 + 1 ∧
    (v.insert_back [x]).capacity = 2 ^ 32 ∧
    (v.insert_back [x]).read (2 ^ 32) = none := by
  have hres : v.reserve (v.used % 2 ^ 32 + [x].length) = v := by
    apply reserve_of_le
    · rw [hu, Nat.mod_self, List.length_singleton]
      omega
    · rw [hu, Nat.mod_self, List.length_singleton, hc]
      omega
  have hl : v.elements.length = 2 ^ 32 := hc
  refine ⟨?_, ?_, ?_⟩
  · simp only [insert_back, hres]
    rw [hu, List.length_singleton]
  · simp only [insert_back, hres, capacity]
    rw [writeSeqO_length]
    exact hc
  · simp only [insert_back, hres, read]
    rw [writeSeqO_getD, if_neg (fun hcon => by omega),
      List.getD_eq_default _ _ (by omega)]

end AlignedVector

/-! ## The claims -/

/-- C4 (confirmed): `reserve(n)` with `0 < n ≤ capacity` changes nothing;
`reserve(0)` releases all storage (size and capacity `0`); `reserve(n)` with
`n > capacity` sets the capacity to `max(n, 2 * capacity)` while preserving
the size and the values of all live elements; and `reserve` never decreases
capacity except `reserve(0)`. -/
theorem C4_reserve_contract {α : Type} (v : AlignedVector α) (n : Nat)
    (hw : v.Wf) :
    (0 < n → n ≤ v.capacity → v.reserve n = v) ∧
    (v.reserve 0 = AlignedVector.empty α ∧ (AlignedVector.empty α).size = 0 ∧
      (AlignedVector.empty α).capacity = 0) ∧
    (v.capacity < n →
      (v.reserve n).capacity = max n (2 * v.capacity) ∧
      (v.reserve n).size = v.size ∧
      (∀ j, j < v.size → (v.reserve n).read j = v.read j)) ∧
    (0 < n → v.capacity ≤ (v.reserve n).capacity) := by
  refine ⟨fun h0 h => AlignedVector.reserve_of_le v h0 h,
    ⟨AlignedVector.reserve_zero v, rfl, rfl⟩,
    fun h => ⟨AlignedVector.reserve_capacity_of_gt v h, ?_,
      fun j hj => AlignedVector.reserve_read v hw (by omega) hj⟩,
    fun h0 => AlignedVector.reserve_capacity_mono v h0⟩
  exact AlignedVector.reserve_used v (by omega)

theorem C4_reserve_contract_witness :
    (⟨[some 1], 1⟩ : AlignedVector Nat).reserve 1 = ⟨[some 1], 1⟩ ∧
    ((⟨[some 1], 1⟩ : AlignedVector Nat).reserve 3).capacity = 3 ∧
    ((⟨[some 1], 1⟩ : AlignedVector Nat).reserve 3).read 0 = some 1 ∧
    (⟨[some 1], 1⟩ : AlignedVector Nat).reserve 0 = AlignedVector.empty Nat := by
  have h3 := C4_reserve_contract (⟨[some 1], 1⟩ : AlignedVector Nat) 3 (by decide)
  have h1 := C4_reserve_contract (⟨[some 1], 1⟩ : AlignedVector Nat) 1 (by decide)
  refine ⟨h1.1 (by decide) (by decide), ?_, ?_, h1.2.1.1⟩
  · rw [(h3.2.2.1 (by decide)).1]
    decide
  · rw [(h3.2.2.1 (by decide)).2.2 0 (by decide)]
    decide

/-- C2 (confirmed): for `n < m`, `resize(n)` followed by any second-call
variant preserves the values that indices `[0, n)` held before the pair of
calls (for the indices that were live, i.e. below the original size `s`; for
`n > s` the tail `[s, n)` held no values beforehand); the new indices
`[n, m)` are default/zero after `resize(m)` and equal to `init` after
`resize(m, init)` (and unconstrained after `resize_fast(m)`, for which the
claim imposes nothing); in all cases the final size is `m` and the final
capacity at least `m`. -/
theorem C2_resize_pair_contract {α : Type} [Inhabited α] (v : AlignedVector α)
    (n m : Nat) (init : α) (hw : v.Wf) (hnm : n < m) :
    (∀ j, j < n → j < v.size →
      ((v.resize n).resize m).read j = v.read j ∧
      ((v.resize n).resize_init m init).read j = v.read j ∧
      ((v.resize n).resize_fast m).read j = v.read j) ∧
    (∀ j, n ≤ j → j < m →
      ((v.resize n).resize m).read j = some (default : α) ∧
      ((v.resize n).resize_init m init).read j = some init) ∧
    ((v.resize n).resize m).size = m ∧
    m ≤ ((v.resize n).resize m).capacity ∧
    ((v.resize n).resize_init m init).size = m ∧
    m ≤ ((v.resize n).resize_init m init).capacity ∧
    ((v.resize n).resize_fast m).size = m ∧
    m ≤ ((v.resize n).resize_fast m).capacity := by
  have hw1 : (v.resize n).Wf := AlignedVector.resize_Wf v n
  have hu1 : (v.resize n).used = n := AlignedVector.resize_used v n
  refine ⟨fun j hjn hju => ?_, fun j hnj hjm => ?_,
    AlignedVector.resize_used _ m, AlignedVector.resize_capacity_ge _ m,
    AlignedVector.resize_init_used _ m init,
    AlignedVector.resize_init_capacity_ge _ m init,
    AlignedVector.resize_fast_used _ m, AlignedVector.resize_fast_capacity_ge _ m⟩
  · have hju1 : j < (v.resize n).used := by omega
    have hr : (v.resize n).read j = v.read j :=
      AlignedVector.resize_read_old v hw hjn hju
    exact ⟨(AlignedVector.resize_read_old _ hw1 (by omega) hju1).trans hr,
      (AlignedVector.resize_init_read_old _ init hw1 (by omega) hju1).trans hr,
      (AlignedVector.resize_fast_read_old _ hw1 (by omega) hju1).trans hr⟩
  · have hju1 : (v.resize n).used ≤ j := by omega
    exact ⟨AlignedVector.resize_read_new _ hju1 hjm,
      AlignedVector.resize_init_read_new _ init hju1 hjm⟩

theorem C2_resize_pair_contract_witness :
    (((⟨[some 3, some 4], 2⟩ : AlignedVector Nat).resize 1).resize 3).read 0 =
      some 3 ∧
    (((⟨[some 3, some 4], 2⟩ : AlignedVector Nat).resize 1).resize 3).read 2 =
      some 0 ∧
    (((⟨[some 3, some 4], 2⟩ : AlignedVector Nat).resize 1).resize_init 3 9).read 1 =
      some 9 ∧
    (((⟨[some 3, some 4], 2⟩ : AlignedVector Nat).resize 1).resize 3).size = 3 := by
  have h := C2_resize_pair_contract (⟨[some 3, some 4], 2⟩ : AlignedVector Nat)
    1 3 9 (by decide) (by decide)
  refine ⟨?_, ?_, ?_, h.2.2.1⟩
  · rw [(h.1 0 (by decide) (by decide)).1]
    decide
  · rw [(h.2.1 2 (by decide) (by decide)).1]
    decide
  · rw [(h.2.1 1 (by decide) (by decide)).2]

/-- C8 (confirmed): `push_back(v)` increments the size, stores the value in
the last slot, keeps the first `s` elements, and on a full container
(`size == capacity`) grows the capacity to exactly `max(2 * capacity, 16)`,
otherwise leaves the capacity unchanged. -/
theorem C8_push_back_contract {α : Type} (v : AlignedVector α) (x : α)
    (hw : v.Wf) :
    (v.push_back x).size = v.size + 1 ∧
    (v.push_back x).read v.size = some x ∧
    (∀ j, j < v.size → (v.push_back x).read j = v.read j) ∧
    (v.size = v.capacity → (v.push_back x).capacity = max (2 * v.capacity) 16) ∧
    (v.size < v.capacity → (v.push_back x).capacity = v.capacity) := by
  by_cases hfull : v.used = v.capacity
  · have hgt : v.capacity < max (2 * v.capacity) 16 := by
      rcases Nat.lt_or_ge v.capacity 16 with h | h
      · exact lt_max_iff.mpr (Or.inr h)
      · exact lt_max_iff.mpr (Or.inl (by omega))
    have h0 : 0 < max (2 * v.capacity) 16 := by omega
    have hu1 : (v.reserve (max (2 * v.capacity) 16)).used = v.used :=
      AlignedVector.reserve_used v h0
    have hc0 : (v.reserve (max (2 * v.capacity) 16)).capacity =
        max (2 * v.capacity) 16 := by
      rw [AlignedVector.reserve_capacity_of_gt v hgt]
      exact Nat.max_eq_left (Nat.le_max_left _ _)
    have hc1 : (v.reserve (max (2 * v.capacity) 16)).elements.length =
        max (2 * v.capacity) 16 := hc0
    have hcap : v.capacity = v.elements.length := rfl
    have hvu : v.used < (v.reserve (max (2 * v.capacity) 16)).elements.length := by
      omega
    simp only [AlignedVector.push_back, if_pos hfull]
    refine ⟨?_, ?_, fun j hj => ?_, fun _ => ?_, fun hlt => by
      simp only [AlignedVector.size] at hlt; omega⟩
    · simp only [AlignedVector.size, hu1]
    · simp only [AlignedVector.read, AlignedVector.size]
      rw [writeSeqO_getD,
        if_pos ⟨le_of_eq hu1, by rw [hu1, List.length_singleton]; omega, hvu⟩,
        hu1, Nat.sub_self]
      rfl
    · simp only [AlignedVector.read, AlignedVector.size] at hj ⊢
      rw [writeSeqO_getD, if_neg (by rw [hu1]; omega)]
      exact AlignedVector.reserve_read v hw h0 hj
    · simp only [AlignedVector.capacity]
      rw [writeSeqO_length]
      exact hc1
  · have hlt : v.used < v.capacity := by
      have h3 : v.used ≤ v.capacity := hw
      omega
    have hcap : v.capacity = v.elements.length := rfl
    simp only [AlignedVector.push_back, if_neg hfull]
    refine ⟨rfl, ?_, fun j hj => ?_, fun heq => by
      simp only [AlignedVector.size] at heq; omega, fun _ => ?_⟩
    · simp only [AlignedVector.read, AlignedVector.size]
      rw [writeSeqO_getD,
        if_pos ⟨Nat.le_refl _, by rw [List.length_singleton]; omega, by omega⟩,
        Nat.sub_self]
      rfl
    · simp only [AlignedVector.read, AlignedVector.size] at hj ⊢
      rw [writeSeqO_getD, if_neg (by omega)]
    · simp only [AlignedVector.capacity]
      rw [writeSeqO_length]

theorem C8_push_back_contract_witness :
    ((⟨[some 1], 1⟩ : AlignedVector Nat).push_back 9).size = 2 ∧
    ((⟨[some 1], 1⟩ : AlignedVector Nat).push_back 9).read 1 = some 9 ∧
    ((⟨[some 1], 1⟩ : AlignedVector Nat).push_back 9).read 0 = some 1 ∧
    ((⟨[some 1], 1⟩ : AlignedVector Nat).push_back 9).capacity = 16 := by
  have h := C8_push_back_contract (⟨[some 1], 1⟩ : AlignedVector Nat) 9 (by decide)
  refine ⟨h.1, h.2.1, ?_, ?_⟩
  · rw [h.2.2.1 0 (by decide)]
    decide
  · rw [h.2.2.2.1 (by decide)]
    decide

/-- C7 (confirmed): move-construction transfers the block: the moved-to
object has the source's size and elements, and the moved-from object is left
with all three pointers null (size `0`, capacity `0`). -/
theorem C7_move_construct_contract {α : Type} (v : AlignedVector α) :
    (v.move_construct).1.size = v.size ∧
    (∀ j, j < v.size → (v.move_construct).1.read j = v.read j) ∧
    (v.move_construct).2.size = 0 ∧
    (v.move_construct).2.capacity = 0 :=
  ⟨rfl, fun _ _ => rfl, rfl, rfl⟩

theorem C7_move_construct_contract_witness :
    ((⟨[some 4, some 5], 2⟩ : AlignedVector Nat).move_construct).1.read 1 =
      some 5 ∧
    ((⟨[some 4, some 5], 2⟩ : AlignedVector Nat).move_construct).2.size = 0 := by
  have h := C7_move_construct_contract (⟨[some 4, some 5], 2⟩ : AlignedVector Nat)
  refine ⟨?_, h.2.2.1⟩
  rw [h.2.1 1 (by decide)]
  decide

/-- C6 (confirmed): for a trivial element type, `save` followed by `load`
into a fresh (default-constructed) container reproduces the size and the
per-slot contents of the original container. -/
theorem C6_save_load_roundtrip {α : Type} (v : AlignedVector α) :
    ((AlignedVector.empty α).load (v.save).1 (v.save).2).size = v.size ∧
    (∀ j, j < v.size →
      ((AlignedVector.empty α).load (v.save).1 (v.save).2).read j = v.read j) := by
  have hs1 : (v.save).1 = v.used := rfl
  have hs2 : (v.save).2 = v.elements.take v.used := rfl
  rw [hs1, hs2]
  simp only [AlignedVector.load]
  by_cases h0 : v.used = 0
  · rw [if_pos h0]
    exact ⟨h0.symm, fun j hj => by
      simp only [AlignedVector.size] at hj
      omega⟩
  · rw [if_neg h0]
    rw [AlignedVector.reserve_empty (by omega)]
    refine ⟨rfl, fun j hj => ?_⟩
    simp only [AlignedVector.size] at hj
    simp only [AlignedVector.read, List.take_take, Nat.min_self]
    by_cases hj2 : j < v.elements.length
    · rw [writeSeqO_getD, if_pos ⟨Nat.zero_le _, by
        rw [List.length_take]
        omega, by rw [List.length_replicate]; omega⟩, Nat.sub_zero,
        getD_take _ _ _ _ hj]
    · rw [writeSeqO_getD, if_neg (by rw [List.length_take]; omega),
        getD_replicate, if_pos hj, List.getD_eq_default _ _ (by omega)]

theorem C6_save_load_roundtrip_witness :
    ((AlignedVector.empty Nat).load
      ((⟨[some 1, some 2], 2⟩ : AlignedVector Nat).save).1
      ((⟨[some 1, some 2], 2⟩ : AlignedVector Nat).save).2).size = 2 ∧
    ((AlignedVector.empty Nat).load
      ((⟨[some 1, some 2], 2⟩ : AlignedVector Nat).save).1
      ((⟨[some 1, some 2], 2⟩ : AlignedVector Nat).save).2).read 1 = some 2 := by
  have h := C6_save_load_roundtrip (⟨[some 1, some 2], 2⟩ : AlignedVector Nat)
  refine ⟨h.1, ?_⟩
  rw [h.2 1 (by decide)]
  decide

/-- C10 (confirmed): copy-assigning a container to itself (`A = A` with
source and destination the same object) leaves it empty — size `0`,
capacity `0`, the state of a default-constructed instance — because the
initial `resize(0)` of `operator=` clears the aliased source before its size
is read.  It is not a value-preserving no-op. -/
theorem C10_self_assignment_empties {α : Type} [Inhabited α]
    (v : AlignedVector α) :
    (v.assign_self).size = 0 ∧ (v.assign_self).capacity = 0 ∧
    v.assign_self = AlignedVector.empty α := by
  have h1 : v.resize 0 = ⟨[], 0⟩ := AlignedVector.resize_zero_eq v
  have h2 : (⟨[], 0⟩ : AlignedVector α).resize_fast 0 = ⟨[], 0⟩ := by
    simp only [AlignedVector.resize_fast, AlignedVector.reserve_zero]
  simp only [AlignedVector.assign_self, h1, h2]
  refine ⟨rfl, rfl, rfl⟩

/-- C9 (confirmed): for trivial element types whose value representation
spans the full `sizeof(T)` bytes (so the `memcmp` against the zero buffer
decides value equality; `element.length = w` states this), the zero-fill
fast path of `internal::AlignedVectorSet` yields exactly the contents the
unoptimized per-element path yields, for every count, element and
destination — and for `long double` (a type whose zero pattern need not span
the full storage width) the `trivial_element` flag is never set, so the fast
path is never taken. -/
theorem C9_zero_fill_equivalence (iT iLD : Bool) (w n : Nat)
    (element : List Nat) (dest : List (List Nat)) (h : element.length = w) :
    alignedVectorSet iT iLD w n element dest =
      alignedVectorSetNoOpt n element dest ∧
    (iLD = true → trivialElement iT iLD w element = false) := by
  constructor
  · unfold alignedVectorSet alignedVectorSetNoOpt
    by_cases hn : n = 0
    · rw [if_pos hn, if_pos hn]
    · rw [if_neg hn, if_neg hn]
      by_cases hfast : (iT && trivialElement iT iLD w element) = true
      · rw [if_pos hfast]
        have hz : element = zeroBytes w := by
          have h2 := hfast
          unfold trivialElement at h2
          rw [Bool.and_eq_true, Bool.and_eq_true, Bool.and_eq_true] at h2
          exact of_decide_eq_true h2.2.2
        rw [hz]
      · rw [if_neg hfast]
  · intro hld
    unfold trivialElement
    rw [hld]
    simp

theorem C9_zero_fill_equivalence_witness :
    alignedVectorSet true false 2 2 [0, 0] [[7, 7], [8, 8], [9, 9]] =
      alignedVectorSetNoOpt 2 [0, 0] [[7, 7], [8, 8], [9, 9]] ∧
    alignedVectorSet true false 2 2 [0, 0] [[7, 7], [8, 8], [9, 9]] =
      [[0, 0], [0, 0], [9, 9]] := by
  have h := C9_zero_fill_equivalence true false 2 2 [0, 0]
    [[7, 7], [8, 8], [9, 9]] (by decide)
  exact ⟨h.1, by decide⟩

/-- C1 counterexample: `load` performs no validation of the declared count.
An archive that declares `2 ^ 60` elements but carries no payload at all (a
maximally corrupted/hostile input) still drives `reserve(2 ^ 60)`: the
resulting capacity — the amount the code committed to allocate before
touching any payload byte — is `2 ^ 60` elements, beyond any sane upper
bound.  This contradicts the claim that the count is validated against a
sane upper bound before any reservation is made. -/
theorem C1_load_counterexample :
    ((AlignedVector.empty Nat).load (2 ^ 60) []).capacity = 2 ^ 60 ∧
    ((AlignedVector.empty Nat).load (2 ^ 60) []).size = 2 ^ 60 := by
  simp only [AlignedVector.load]
  rw [if_neg (by positivity), AlignedVector.reserve_empty (by positivity)]
  refine ⟨?_, rfl⟩
  simp only [AlignedVector.capacity, List.take_nil, writeSeqO_nil_vals,
    List.length_replicate]

/-- C1 (corrected): what `load` actually does.  It reads the count and, when
the count is nonzero, *immediately* reserves capacity for that many elements
with no upper-bound validation whatsoever — growing the capacity to
`max(count, 2 * capacity)` whenever the count exceeds the current capacity —
then reads the payload into the raw buffer and sets `used_elements_end` to
`elements + count`. -/
theorem C1_load_reserves_count_unvalidated {α : Type} (v : AlignedVector α)
    (count : Nat) (payload : List (Option α)) (hc : 0 < count) :
    (v.load count payload).size = count ∧
    count ≤ (v.load count payload).capacity ∧
    (v.capacity < count →
      (v.load count payload).capacity = max count (2 * v.capacity)) ∧
    (count ≤ v.capacity → (v.load count payload).capacity = v.capacity) ∧
    (∀ j, j < count → j < payload.length →
      (v.load count payload).read j = payload.getD j none) := by
  simp only [AlignedVector.load]
  rw [if_neg (by omega)]
  have hcap : count ≤ (v.reserve count).capacity :=
    AlignedVector.reserve_capacity_ge v hc
  refine ⟨rfl, ?_, fun hgt => ?_, fun hle => ?_, fun j hj hjp => ?_⟩
  · simp only [AlignedVector.capacity] at hcap ⊢
    rw [writeSeqO_length]
    exact hcap
  · simp only [AlignedVector.capacity]
    rw [writeSeqO_length]
    exact AlignedVector.reserve_capacity_of_gt v hgt
  · simp only [AlignedVector.capacity]
    rw [writeSeqO_length]
    rw [AlignedVector.reserve_of_le v hc hle]
  · simp only [AlignedVector.read]
    have hl : j < (v.reserve count).elements.length := by
      simp only [AlignedVector.capacity] at hcap
      omega
    rw [writeSeqO_getD, if_pos ⟨Nat.zero_le _, by rw [List.length_take]; omega, hl⟩,
      Nat.sub_zero, getD_take _ _ _ _ hj]

theorem C1_load_reserves_count_unvalidated_witness :
    ((AlignedVector.empty Nat).load 2 [some 5, some 6]).size = 2 ∧
    2 ≤ ((AlignedVector.empty Nat).load 2 [some 5, some 6]).capacity ∧
    ((AlignedVector.empty Nat).load 2 [some 5, some 6]).read 1 = some 6 := by
  have h := C1_load_reserves_count_unvalidated (AlignedVector.empty Nat) 2
    [some 5, some 6] (by decide)
  refine ⟨h.1, h.2.1, ?_⟩
  rw [h.2.2.2.2 1 (by decide) (by decide)]
  decide

/-- C3 counterexample: a well-formed, full container holding `2 ^ 32`
elements.  `insert_back` of a one-element range narrows the old size to
`unsigned int` (obtaining `0`), reserves only `0 + 1 = 1` slot — a no-op —
and then appends past the end of the block: afterwards `size()` is
`2 ^ 32 + 1` but the capacity is still `2 ^ 32`, so the claimed
postcondition `capacity() ≥ s + L` fails and the appended element was never
stored (the slot `2 ^ 32` does not exist). -/
theorem C3_insert_back_counterexample :
    (⟨List.replicate (2 ^ 32) (some 0), 2 ^ 32⟩ : AlignedVector Nat).Wf ∧
    ((⟨List.replicate (2 ^ 32) (some 0), 2 ^ 32⟩ :
        AlignedVector Nat).insert_back [7]).size = 2 ^ 32 + 1 ∧
    ((⟨List.replicate (2 ^ 32) (some 0), 2 ^ 32⟩ :
        AlignedVector Nat).insert_back [7]).capacity = 2 ^ 32 ∧
    ((⟨List.replicate (2 ^ 32) (some 0), 2 ^ 32⟩ :
        AlignedVector Nat).insert_back [7]).read (2 ^ 32) = none := by
  have hc : (⟨List.replicate (2 ^ 32) (some 0), 2 ^ 32⟩ :
      AlignedVector Nat).capacity = 2 ^ 32 := by
    simp only [AlignedVector.capacity, List.length_replicate]
  have h := AlignedVector.insert_back_oversized
    (⟨List.replicate (2 ^ 32) (some 0), 2 ^ 32⟩ : AlignedVector Nat) 7 rfl hc
  refine ⟨?_, ?_, h.2.1, h.2.2⟩
  · show (2 : Nat) ^ 32 ≤ (⟨List.replicate (2 ^ 32) (some 0), 2 ^ 32⟩ :
      AlignedVector Nat).capacity
    rw [hc]
  · rw [AlignedVector.size_eq_used]
    exact h.1

/-- C3 (corrected): the `insert_back` contract as claimed — reserve for the
combined size, append in order, `size() = s + L`, `capacity() ≥ s + L`,
first `s` elements unchanged, appended elements equal to the source — holds
for every container whose size is below `2 ^ 32` (the narrowing of the old
size to `unsigned int` is then the identity). -/
theorem C3_insert_back_contract {α : Type} (v : AlignedVector α)
    (src : List α) (hw : v.Wf) (hs : v.size < 2 ^ 32) :
    (v.insert_back src).size = v.size + src.length ∧
    v.size + src.length ≤ (v.insert_back src).capacity ∧
    (∀ j, j < v.size → (v.insert_back src).read j = v.read j) ∧
    (∀ j, j < src.length → (v.insert_back src).read (v.size + j) = src[j]?) := by
  simp only [AlignedVector.size] at hs ⊢
  have hmod : v.used % 2 ^ 32 = v.used := Nat.mod_eq_of_lt hs
  simp only [AlignedVector.insert_back, hmod]
  by_cases hz : v.used + src.length = 0
  · have hu0 : v.used = 0 := by omega
    have hsrc : src = [] := List.length_eq_zero.mp (by omega)
    subst hsrc
    rw [hu0]
    simp only [List.length_nil, Nat.add_zero, List.map_nil,
      AlignedVector.reserve_zero, writeSeqO_nil_vals]
    refine ⟨by simp, by simp [AlignedVector.capacity],
      fun j hj => absurd hj (by omega), fun j hj => absurd hj (by simp)⟩
  · have h0 : 0 < v.used + src.length := by omega
    have hu1 : (v.reserve (v.used + src.length)).used = v.used :=
      AlignedVector.reserve_used v h0
    have hc1 : v.used + src.length ≤
        (v.reserve (v.used + src.length)).capacity :=
      AlignedVector.reserve_capacity_ge v h0
    have hc1L : v.used + src.length ≤
        (v.reserve (v.used + src.length)).elements.length := hc1
    refine ⟨by rw [hu1], ?_, fun j hj => ?_, fun j hj => ?_⟩
    · simp only [AlignedVector.capacity]
      rw [writeSeqO_length]
      exact hc1
    · simp only [AlignedVector.read]
      rw [writeSeqO_getD, if_neg (by rw [hu1]; omega)]
      exact AlignedVector.reserve_read v hw h0 hj
    · simp only [AlignedVector.read]
      rw [writeSeqO_getD,
        if_pos ⟨by rw [hu1]; omega, by rw [hu1, List.length_map]; omega,
          by omega⟩, hu1, Nat.add_sub_cancel_left]
      exact getD_map_some src j hj

theorem C3_insert_back_contract_witness :
    ((⟨[some 1], 1⟩ : AlignedVector Nat).insert_back [7, 8]).size = 3 ∧
    3 ≤ ((⟨[some 1], 1⟩ : AlignedVector Nat).insert_back [7, 8]).capacity ∧
    ((⟨[some 1], 1⟩ : AlignedVector Nat).insert_back [7, 8]).read 0 = some 1 ∧
    ((⟨[some 1], 1⟩ : AlignedVector Nat).insert_back [7, 8]).read 2 = some 8 := by
  have h := C3_insert_back_contract (⟨[some 1], 1⟩ : AlignedVector Nat) [7, 8]
    (by decide) (by decide)
  refine ⟨h.1, h.2.1, ?_, ?_⟩
  · rw [h.2.2.1 0 (by decide)]
    decide
  · rw [show (2 : Nat) =
        (⟨[some 1], 1⟩ : AlignedVector Nat).size + 1 from rfl,
      h.2.2.2 1 (by decide)]
    decide

/-- C5 (code bug): the pointer invariant `begin ≤ used_end ≤ allocated_end`
is *not* maintained by every public-operation sequence.  Starting from a
default-constructed container (size `0`, capacity `0`, all pointers null)
and applying the public operations `resize(2 ^ 32)` and then `insert_back`
of a one-element range, the `unsigned int` narrowing in `insert_back` makes
it reserve only one slot and then advance `used_elements_end` to
`begin + 2 ^ 32 + 1`, past `allocated_elements_end = begin + 2 ^ 32` — the
very inequality `push_back` asserts.  The `clear()`/default-construction
half of the claim does hold: both leave size `0` and capacity `0`. -/
theorem C5_invariant_violated :
    ¬ (((AlignedVector.empty Nat).resize (2 ^ 32)).insert_back [5]).Wf ∧
    (((AlignedVector.empty Nat).resize (2 ^ 32)).insert_back [5]).size =
      2 ^ 32 + 1 ∧
    (((AlignedVector.empty Nat).resize (2 ^ 32)).insert_back [5]).capacity =
      2 ^ 32 ∧
    ((AlignedVector.empty Nat).size = 0 ∧
      (AlignedVector.empty Nat).capacity = 0) ∧
    ((⟨[some 1], 1⟩ : AlignedVector Nat).clear.size = 0 ∧
      (⟨[some 1], 1⟩ : AlignedVector Nat).clear.capacity = 0) := by
  have hAu : ((AlignedVector.empty Nat).resize (2 ^ 32)).used = 2 ^ 32 :=
    AlignedVector.resize_used _ _
  have hAc : ((AlignedVector.empty Nat).resize (2 ^ 32)).capacity = 2 ^ 32 :=
    AlignedVector.resize_empty_capacity (by positivity)
  have h := AlignedVector.insert_back_oversized
    ((AlignedVector.empty Nat).resize (2 ^ 32)) 5 hAu hAc
  refine ⟨?_, ?_, h.2.1, ⟨rfl, rfl⟩, ⟨rfl, rfl⟩⟩
  · show ¬ ((((AlignedVector.empty Nat).resize (2 ^ 32)).insert_back [5]).used ≤
      (((AlignedVector.empty Nat).resize (2 ^ 32)).insert_back [5]).capacity)
    rw [h.1, h.2.1]
    omega
  · rw [AlignedVector.size_eq_used]
    exact h.1
